import Mathlib

/-!
Verification of the expense-tracker dashboard (`expense_tracker.py`).

The program loads a Splitwise-style CSV into an in-memory table, filters out
settlement rows ("paid"), takes absolute values of the two per-person amount
columns, and computes daily / monthly / per-category aggregates which are then
rendered.  This file shallowly embeds the data model and the operations
`load_data`, `process_daily_data`, `process_monthly_data`, `get_category_data`,
the rendering decisions of `main`, and the display-string formatting, and
proves or refutes the frozen claims about them.

Amounts are modelled as rationals (the Python code uses floats; none of the
claims under study depends on binary rounding of individual amounts).
-/

/-- A calendar date, the parsed form of the CSV `Date` column
(`pd.to_datetime` produces timestamps; the time component is always midnight
for date-only input, so it is omitted). -/
structure Date where
  year : Nat
  month : Nat
  day : Nat
deriving DecidableEq, Repr

/-- Chronological (year, month, day) comparison, the order `pandas` uses when
grouping/sorting by a timestamp column. -/
def Date.ble (a b : Date) : Bool :=
  decide (a.year < b.year ∨ (a.year = b.year ∧
    (a.month < b.month ∨ (a.month = b.month ∧ a.day ≤ b.day))))

/-- `pd.Timestamp` values lie in 1677..2262, so the year always has four
digits; months are 1..12. -/
def validDate (d : Date) : Prop :=
  1000 ≤ d.year ∧ d.year ≤ 9999 ∧ 1 ≤ d.month ∧ d.month ≤ 12

instance : DecidablePred validDate := fun _ => by unfold validDate; infer_instance

/-- One record of the loaded table:
`{Date, Description, Category, Alysson, Bruce Cheng}`. -/
structure Row where
  date : Date
  description : String
  category : String
  alysson : ℚ
  bruceCheng : ℚ
deriving DecidableEq, Repr

/-- The two selectable people (`st.selectbox("Select Person", ...)`). -/
inductive Person where
  | alysson
  | bruceCheng
deriving DecidableEq, Repr

/-- The amount column of the selected person. -/
def Row.amount (p : Person) (r : Row) : ℚ :=
  match p with
  | .alysson => r.alysson
  | .bruceCheng => r.bruceCheng

/-- `df['Description'].str.contains('paid', case=False)`: the description,
lower-cased character by character, contains the substring `"paid"`. -/
def lowerContainsPaid (s : String) : Bool :=
  decide ("paid".data <:+: s.data.map Char.toLower)

/-- The absolute-value normalization `df[col] = df[col].abs()` applied to the
two numeric columns of one row. -/
def absRow (r : Row) : Row :=
  { r with alysson := |r.alysson|, bruceCheng := |r.bruceCheng| }

/-- `load_data`, after CSV parsing: drop the rows whose description contains
`'paid'` case-insensitively, then replace the two amount columns by their
absolute values.  (The file-level ingest steps `pd.read_csv` /
`pd.to_datetime` are library code whose raising behaviour is not modelled
here; rows enter the model already parsed.) -/
def load_data (rows : List Row) : List Row :=
  (rows.filter fun r => !lowerContainsPaid r.description).map absRow

/-- Spec-side predicate (from the claim's words): the string contains the
substring `'paid'` case-insensitively, i.e. some contiguous piece of it
lower-cases to `"paid"`. -/
def specContainsPaidCI (s : String) : Prop :=
  ∃ pre mid post : List Char,
    s.data = pre ++ (mid ++ post) ∧ mid.map Char.toLower = "paid".data

/-- Spec-side transform (from the claim's words): the two amount columns are
replaced by their absolute values and every other field is unchanged. -/
def spec_transform (r : Row) : Row :=
  ⟨r.date, r.description, r.category, |r.alysson|, |r.bruceCheng|⟩

/-- Sample rows used by concrete witnesses and counterexamples. -/
def sampleRow : Row :=
  ⟨⟨2024, 1, 15⟩, "dinner", "Food", -3, 5⟩

/-- A settlement row: its description contains "Paid" (upper-case P). -/
def paidRow : Row :=
  ⟨⟨2024, 1, 16⟩, "Paid by Bruce", "Payment", 10, -10⟩

/-! ### Sorted grouping

`df.groupby(key)` enumerates the distinct key values in ascending order
(`sort=True` is the pandas default).  We model this as insertion sort over the
deduplicated key list. -/

/-- Insert `a` into `l` in front of the first element `b` with `le a b`. -/
def insertSorted (le : α → α → Bool) (a : α) : List α → List α
  | [] => [a]
  | b :: bs => if le a b then a :: b :: bs else b :: insertSorted le a bs

/-- Insertion sort with respect to a boolean `le`. -/
def sortBy (le : α → α → Bool) : List α → List α
  | [] => []
  | a :: as => insertSorted le a (sortBy le as)

/-! ### Daily aggregation -/

/-- The `ℚ`-sum of the selected person's amounts over a list of rows. -/
def sumAmount (rows : List Row) (p : Person) : ℚ :=
  (rows.map (Row.amount p)).sum

/-- The distinct dates of the table, in the ascending order in which
`df.groupby('Date')` enumerates them. -/
def datesOf (rows : List Row) : List Date :=
  sortBy Date.ble (rows.map (·.date)).dedup

/-- `process_daily_data`: group by `Date`, one output row `(Date, Total)` per
distinct date, `Total` being the group sum of the selected person's column. -/
def process_daily_data (rows : List Row) (p : Person) : List (Date × ℚ) :=
  (datesOf rows).map fun d => (d, sumAmount (rows.filter fun r => decide (r.date = d)) p)

/-! ### Python string order

pandas sorts string group keys with Python's `<` on `str`, which is
lexicographic comparison of code points.  We model it structurally on the
character list of the string. -/

/-- Lexicographic (code-point) comparison of character lists: Python's `<`
on strings. -/
def lexLtb : List Char → List Char → Bool
  | [], [] => false
  | [], _ :: _ => true
  | _ :: _, [] => false
  | a :: as, b :: bs => if a < b then true else if b < a then false else lexLtb as bs

/-- Python string `<`. -/
def strLtb (s t : String) : Bool := lexLtb s.data t.data

/-- Python string `<=` (total order: `s <= t ↔ ¬ t < s`). -/
def strLeb (s t : String) : Bool := !strLtb t s

/-! ### Month keys and monthly aggregation -/

/-- The character of a decimal digit. -/
def digitChar (n : Nat) : Char := Char.ofNat (48 + n % 10)

/-- `df['Date'].dt.strftime('%Y-%m')`: the month key `"YYYY-MM"` of a date.
`pd.Timestamp` years always have four digits (1677..2262) and `%m` is
zero-padded to two digits. -/
def monthKey (d : Date) : String :=
  ⟨[digitChar (d.year / 1000), digitChar (d.year / 100), digitChar (d.year / 10),
    digitChar d.year, '-', digitChar (d.month / 10), digitChar d.month]⟩

/-- The distinct month keys of the table, ascending as `groupby` yields them
(Python string order). -/
def monthsOf (rows : List Row) : List String :=
  sortBy strLeb (rows.map fun r => monthKey r.date).dedup

/-- The rows belonging to one month key. -/
def monthGroup (rows : List Row) (m : String) : List Row :=
  rows.filter fun r => decide (monthKey r.date = m)

/-- One output row of `process_monthly_data`: the aggregated columns
`Month, Total, Average, Transactions` plus the shift-derived columns
`Previous_Month_Total, Change, Change_Percentage`.  `none` models pandas
`NaN` in the shifted columns of the first row. -/
structure MonthlyRow where
  month : String
  total : ℚ
  average : ℚ
  transactions : Nat
  prevTotal : Option ℚ
  change : Option ℚ
  changePct : ℚ
deriving DecidableEq, Repr

/-- The `agg({person: ['sum','mean','count']})` result for one month group
(lines 31-34); the shift-derived columns are filled in afterwards. -/
def monthlyAgg1 (rows : List Row) (p : Person) (m : String) : MonthlyRow :=
  { month := m,
    total := sumAmount (monthGroup rows m) p,
    average := sumAmount (monthGroup rows m) p / ((monthGroup rows m).length : ℚ),
    transactions := (monthGroup rows m).length,
    prevTotal := none, change := none, changePct := 0 }

/-- The aggregated table before the shift-based columns. -/
def monthlyBase (rows : List Row) (p : Person) : List MonthlyRow :=
  (monthsOf rows).map (monthlyAgg1 rows p)

/-- Fill the shift-derived columns of one row, given the previous row's
`Total` (`none` for the first row, where `shift(1)` yields `NaN`):
`Change = Total - Previous_Month_Total` and
`Change_Percentage = (Change / Previous_Month_Total * 100).fillna(0)`. -/
def shiftFill (x : MonthlyRow × Option ℚ) : MonthlyRow :=
  { x.1 with
    prevTotal := x.2,
    change := x.2.map fun v => x.1.total - v,
    changePct :=
      match x.2 with
      | none => 0
      | some v => (x.1.total - v) / v * 100 }

/-- `process_monthly_data`: the monthly aggregation followed by
`shift(1)`-based `Change` and `Change_Percentage` (with `fillna(0)` for the
first row, lines 37-39). -/
def process_monthly_data (rows : List Row) (p : Person) : List MonthlyRow :=
  ((monthlyBase rows p).zip
    (none :: (monthlyBase rows p).map fun b => some b.total)).map shiftFill

/-- A row in a different month, for multi-month witnesses. -/
def febRow : Row :=
  ⟨⟨2024, 2, 3⟩, "groceries", "Food", 7, 2⟩

/-! ### Chronology of the month keys (C10) -/

/-! ### Category breakdown, dataframe state and the UI empty-state (C5, C6) -/

/-- Python `str.strip()`: remove leading and trailing whitespace. -/
def pyStrip (s : String) : String :=
  ⟨((s.data.dropWhile Char.isWhitespace).reverse.dropWhile Char.isWhitespace).reverse⟩

/-- The distinct categories, ascending as `groupby('Category')` yields them. -/
def categoriesOf (rows : List Row) : List String :=
  sortBy strLeb (rows.map (·.category)).dedup

/-- The category aggregation of `get_category_data` (lines 51-54): group the
given (already period-filtered) rows by `Category`, sum the selected person's
column, then drop the categories that are blank after stripping. -/
def categoryAgg (rows : List Row) (p : Person) : List (String × ℚ) :=
  ((categoriesOf rows).map fun c =>
      (c, sumAmount (rows.filter fun r => decide (r.category = c)) p)).filter
    fun x => decide (pyStrip x.1 ≠ "")

/-- The in-memory dataframe: its rows plus whether the derived `'Month'`
column has been added to it.  (`get_category_data` assigns
`df['Month'] = df['Date'].dt.strftime('%Y-%m')` in monthly mode, mutating the
shared dataframe; the column's values are always exactly `monthKey` of the
`Date` column, so its presence is the only extra state.) -/
structure DataFrame where
  rows : List Row
  hasMonthCol : Bool
deriving DecidableEq, Repr

/-- The dataframe as `main` receives it from `load_data`. -/
def load_df (rows : List Row) : DataFrame := ⟨load_data rows, false⟩

/-- `process_daily_data` does not assign into the dataframe: state-passing
wrapper returning the unchanged dataframe. -/
def process_daily_data_st (df : DataFrame) (p : Person) :
    List (Date × ℚ) × DataFrame :=
  (process_daily_data df.rows p, df)

/-- `process_monthly_data` does not assign into the dataframe. -/
def process_monthly_data_st (df : DataFrame) (p : Person) :
    List MonthlyRow × DataFrame :=
  (process_monthly_data df.rows p, df)

/-- `get_category_data` with `is_monthly=False`: filter by the selected date
(or not at all), aggregate by category; the dataframe is not mutated. -/
def get_category_data_daily (df : DataFrame) (p : Person) (sel : Option Date) :
    List (String × ℚ) × DataFrame :=
  (categoryAgg
    (match sel with
      | some d => df.rows.filter fun r => decide (r.date = d)
      | none => df.rows) p,
   df)

/-- `get_category_data` with `is_monthly=True`: line 46 assigns the derived
`'Month'` column into the shared dataframe before filtering by the selected
month key, so the returned dataframe state has the column. -/
def get_category_data_monthly (df : DataFrame) (p : Person) (sel : Option String) :
    List (String × ℚ) × DataFrame :=
  (categoryAgg
    (match sel with
      | some m => df.rows.filter fun r => decide (monthKey r.date = m)
      | none => df.rows) p,
   { df with hasMonthCol := true })

/-- What `main` renders for the category breakdown panel. -/
inductive CategoryView where
  | chartAndTable
  | emptyInfo
deriving DecidableEq, Repr

/-- Daily view (lines 385-411): `if not category_data.empty:` render the pie
chart and table, `else` show `st.info("No expenses for the selected date.")`. -/
def daily_category_view (catData : List (String × ℚ)) : CategoryView :=
  if catData.isEmpty then .emptyInfo else .chartAndTable

/-- Monthly view (lines 447-478): the pie chart and table are rendered
unconditionally; there is no emptiness check. -/
def monthly_category_view (_ : List (String × ℚ)) : CategoryView :=
  .chartAndTable

/-- A row whose category is blank after stripping, so the category
aggregation drops it. -/
def blankCatRow : Row :=
  ⟨⟨2024, 1, 15⟩, "snacks", " ", 4, 6⟩

/-! ### Non-negativity of loaded amounts and aggregates (C9) -/

/-! ### Display-string formatting (C8)

`main` renders currency metrics with the Python format spec `"${:,.2f}"` and
the last-month change with `"{:,.1f}%"`: sign, comma-grouped integer part,
a point, exactly `prec` fraction digits.  Python rounds the scaled value
half-to-even. -/

/-- Round half-to-even (Python float formatting semantics, idealized over
`ℚ`). -/
def roundHalfEven (q : ℚ) : ℤ :=
  if Int.fract q < 1 / 2 then ⌊q⌋
  else if 1 / 2 < Int.fract q then ⌊q⌋ + 1
  else if ⌊q⌋ % 2 = 0 then ⌊q⌋ else ⌊q⌋ + 1

/-- The decimal digits of `n`, least significant first (fuel-based so that it
evaluates by kernel reduction). -/
def natDigitsF : Nat → Nat → List Char
  | 0, _ => []
  | f + 1, n => if n = 0 then [] else digitChar n :: natDigitsF f (n / 10)

/-- The decimal digits of `n`, least significant first (`[]` for 0). -/
def natDigitsLSB (n : Nat) : List Char := natDigitsF n n

/-- Insert a comma after every three characters (operating least significant
first, i.e. thousands grouping once reversed). -/
def group3 : List Char → List Char
  | d1 :: d2 :: d3 :: d :: rest => d1 :: d2 :: d3 :: ',' :: group3 (d :: rest)
  | ds => ds

/-- Exactly `prec` digits of `m`, most significant first, zero-padded. -/
def fracChars : Nat → Nat → List Char
  | 0, _ => []
  | p + 1, m => fracChars p (m / 10) ++ [digitChar m]

/-- Read a least-significant-first digit-character list back as a number. -/
def decValLSB (l : List Char) : Nat :=
  l.foldr (fun c acc => (c.toNat - 48) + 10 * acc) 0

/-- The comma-grouped integer part, most significant first (`"0"` for 0, as
Python prints). -/
def intPartChars (n : Nat) : List Char :=
  if n = 0 then [digitChar 0] else (group3 (natDigitsLSB n)).reverse

/-- The Python format spec `",.{prec}f"` applied to `x`. -/
def pyGroupedFixed (x : ℚ) (prec : Nat) : String :=
  ⟨(if roundHalfEven (x * (10 : ℚ) ^ prec) < 0 then ['-'] else []) ++
    intPartChars ((roundHalfEven (x * (10 : ℚ) ^ prec)).natAbs / 10 ^ prec) ++
    '.' :: fracChars prec ((roundHalfEven (x * (10 : ℚ) ^ prec)).natAbs % 10 ^ prec)⟩

/-- `f"${x:,.2f}"`, the currency rendering of `main`. -/
def pyCurrency (x : ℚ) : String := "$" ++ pyGroupedFixed x 2

/-- `f"{x:,.1f}%"`, the percentage rendering of the last-month change. -/
def pyPercent (x : ℚ) : String := pyGroupedFixed x 1 ++ "%"

/-- `st.metric("Total Expenses", ...)` in the daily view (line 353/358). -/
def metric_total_daily (df : DataFrame) (p : Person) : String :=
  pyCurrency (((process_daily_data df.rows p).map Prod.snd).sum)

/-- `st.metric("Last Month Change", ...)` (lines 426-429); `iloc[-1]` on an
empty table raises, modelled as `none`. -/
def metric_last_month_change (df : DataFrame) (p : Person) : Option String :=
  ((process_monthly_data df.rows p).getLast?).map fun mr => pyPercent mr.changePct

/-! ### Lemmas and claim theorems -/

lemma contains_paid_iff (s : String) :
    lowerContainsPaid s = true ↔ specContainsPaidCI s := by
  unfold lowerContainsPaid specContainsPaidCI
  rw [decide_eq_true_iff]
  constructor
  · rintro ⟨t, u, hs⟩
    rcases List.append_eq_map_iff.mp hs with ⟨l₁, l₂, hsplit, hmt, hrest⟩
    rcases List.map_eq_append_iff.mp hmt with ⟨l₃, l₄, hsplit2, hmt2, hmid⟩
    refine ⟨l₃, l₄, l₂, ?_, hmid⟩
    rw [hsplit, hsplit2, List.append_assoc]
  · rintro ⟨pre, mid, post, hs, hmid⟩
    refine ⟨pre.map Char.toLower, post.map Char.toLower, ?_⟩
    rw [hs]
    simp [hmid]

/-- C1 — `load_data` keeps exactly the rows whose description does not contain
`'paid'` case-insensitively, replaces the two amount columns of each kept row
by their absolute values, and leaves every other field unchanged. -/
theorem load_data_filters_paid_and_abs (rows : List Row) :
    load_data rows =
      (rows.filter fun r => !lowerContainsPaid r.description).map spec_transform
    ∧ ∀ r : Row,
        lowerContainsPaid r.description = false ↔ ¬ specContainsPaidCI r.description := by
  constructor
  · unfold load_data
    refine List.map_congr_left fun r _ => ?_
    cases r; rfl
  · intro r
    rw [← contains_paid_iff]
    simp

/-- Witness for C1 at a concrete two-row table: the "Paid by Bruce" row is
dropped (case-insensitively) and the kept row's amounts are made absolute. -/
theorem load_data_filters_paid_and_abs_witness :
    (load_data [sampleRow, paidRow] =
      ([sampleRow, paidRow].filter fun r => !lowerContainsPaid r.description).map
        spec_transform)
    ∧ load_data [sampleRow, paidRow] = [⟨⟨2024, 1, 15⟩, "dinner", "Food", 3, 5⟩] :=
  ⟨(load_data_filters_paid_and_abs [sampleRow, paidRow]).1, by decide⟩

lemma insertSorted_perm (le : α → α → Bool) (a : α) (l : List α) :
    (insertSorted le a l).Perm (a :: l) := by
  induction l with
  | nil => rfl
  | cons b bs ih =>
    by_cases h : le a b
    · simp [insertSorted, h]
    · simp only [insertSorted, h, Bool.false_eq_true, if_false]
      exact (ih.cons b).trans (List.Perm.swap a b bs)

lemma sortBy_perm (le : α → α → Bool) (l : List α) : (sortBy le l).Perm l := by
  induction l with
  | nil => rfl
  | cons a as ih => exact (insertSorted_perm le a (sortBy le as)).trans (ih.cons a)

lemma insertSorted_pairwise (le : α → α → Bool)
    (htot : ∀ a b, le a b = true ∨ le b a = true)
    (htr : ∀ a b c, le a b = true → le b c = true → le a c = true)
    (a : α) (l : List α) (hp : l.Pairwise fun x y => le x y = true) :
    (insertSorted le a l).Pairwise fun x y => le x y = true := by
  induction l with
  | nil => simp [insertSorted]
  | cons b bs ih =>
    rw [List.pairwise_cons] at hp
    by_cases h : le a b
    · simp only [insertSorted, h, if_true]
      refine List.pairwise_cons.mpr ⟨?_, List.pairwise_cons.mpr hp⟩
      intro x hx
      rcases List.mem_cons.mp hx with rfl | hx
      · exact h
      · exact htr a b x h (hp.1 x hx)
    · simp only [insertSorted, h, Bool.false_eq_true, if_false]
      refine List.pairwise_cons.mpr ⟨?_, ih hp.2⟩
      intro x hx
      rcases List.mem_cons.mp ((insertSorted_perm le a bs).mem_iff.mp hx) with heq | hx
      · rw [heq]
        rcases htot a b with h2 | h2
        · exact absurd h2 h
        · exact h2
      · exact hp.1 x hx

lemma sortBy_pairwise (le : α → α → Bool)
    (htot : ∀ a b, le a b = true ∨ le b a = true)
    (htr : ∀ a b c, le a b = true → le b c = true → le a c = true)
    (l : List α) : (sortBy le l).Pairwise fun x y => le x y = true := by
  induction l with
  | nil => exact List.Pairwise.nil
  | cons a as ih => exact insertSorted_pairwise le htot htr a (sortBy le as) ih

lemma mem_datesOf (rows : List Row) (d : Date) :
    d ∈ datesOf rows ↔ ∃ r ∈ rows, r.date = d := by
  unfold datesOf
  rw [(sortBy_perm _ _).mem_iff, List.mem_dedup]
  simp [eq_comm]

lemma datesOf_nodup (rows : List Row) : (datesOf rows).Nodup :=
  ((sortBy_perm _ _).symm.nodup (List.nodup_dedup _))

/-- C2 — `process_daily_data` returns one row per distinct `Date` of the
dataset, whose `Total` is the sum of the selected person's amounts over all
rows bearing that date. -/
theorem process_daily_data_groupby_sum (rows : List Row) (p : Person) :
    ((process_daily_data rows p).map Prod.fst).Nodup
    ∧ (∀ d : Date,
        d ∈ (process_daily_data rows p).map Prod.fst ↔ ∃ r ∈ rows, r.date = d)
    ∧ ∀ x ∈ process_daily_data rows p,
        x.2 = ((rows.filter fun r => decide (r.date = x.1)).map (Row.amount p)).sum := by
  have hfst : (process_daily_data rows p).map Prod.fst = datesOf rows := by
    simp [process_daily_data, List.map_map, Function.comp_def]
  refine ⟨?_, ?_, ?_⟩
  · rw [hfst]; exact datesOf_nodup rows
  · intro d; rw [hfst]; exact mem_datesOf rows d
  · intro x hx
    unfold process_daily_data at hx
    rcases List.mem_map.mp hx with ⟨d, _, rfl⟩
    rfl

lemma lexLtb_asymm (x : List Char) :
    ∀ y, lexLtb x y = true → lexLtb y x = false := by
  induction x with
  | nil => intro y h; cases y <;> simp [lexLtb]
  | cons a as ih =>
    intro y h
    cases y with
    | nil => simp [lexLtb] at h
    | cons b bs =>
      rcases lt_trichotomy a b with hab | rfl | hab
      · simp [lexLtb, hab, lt_asymm hab]
      · simp only [lexLtb, lt_irrefl, if_false] at h ⊢
        exact ih bs h
      · simp [lexLtb, hab, lt_asymm hab] at h

lemma lexLtb_trans (x : List Char) :
    ∀ y z, lexLtb x y = true → lexLtb y z = true → lexLtb x z = true := by
  induction x with
  | nil =>
    intro y z hxy hyz
    cases y with
    | nil => simp [lexLtb] at hxy
    | cons b bs => cases z with
      | nil => simp [lexLtb] at hyz
      | cons c cs => simp [lexLtb]
  | cons a as ih =>
    intro y z hxy hyz
    cases y with
    | nil => simp [lexLtb] at hxy
    | cons b bs =>
      cases z with
      | nil => simp [lexLtb] at hyz
      | cons c cs =>
        rcases lt_trichotomy a b with hab | rfl | hab
        · rcases lt_trichotomy b c with hbc | rfl | hbc
          · simp [lexLtb, hab.trans hbc]
          · simp [lexLtb, hab]
          · simp [lexLtb, hbc, lt_asymm hbc] at hyz
        · rcases lt_trichotomy a c with hac | rfl | hac
          · simp [lexLtb, hac]
          · simp only [lexLtb, lt_irrefl, if_false] at hxy hyz ⊢
            exact ih bs cs hxy hyz
          · simp only [lexLtb, lt_irrefl, if_false] at hxy ⊢
            simp [lexLtb, lt_asymm hac, hac] at hyz
        · simp [lexLtb, hab, lt_asymm hab] at hxy

lemma lexLtb_connex (x : List Char) :
    ∀ y, lexLtb x y = false → lexLtb y x = false → x = y := by
  induction x with
  | nil => intro y h _; cases y with
    | nil => rfl
    | cons b bs => simp [lexLtb] at h
  | cons a as ih =>
    intro y h h2
    cases y with
    | nil => simp [lexLtb] at h2
    | cons b bs =>
      rcases lt_trichotomy a b with hab | rfl | hab
      · simp [lexLtb, hab] at h
      · simp only [lexLtb, lt_irrefl, if_false] at h h2
        rw [ih bs h h2]
      · simp [lexLtb, hab, lt_asymm hab] at h2

lemma strLeb_total (a b : String) : strLeb a b = true ∨ strLeb b a = true := by
  unfold strLeb strLtb
  cases h1 : lexLtb b.data a.data
  · simp
  · simp [lexLtb_asymm _ _ h1]

lemma strLeb_trans (a b c : String) :
    strLeb a b = true → strLeb b c = true → strLeb a c = true := by
  unfold strLeb strLtb
  intro h1 h2
  rw [Bool.not_eq_true'] at h1 h2 ⊢
  cases h3 : lexLtb c.data a.data
  · rfl
  · cases h4 : lexLtb b.data c.data
    · have hcb := lexLtb_connex c.data b.data h2 h4
      rw [hcb] at h3
      rw [h3] at h1
      exact h1
    · have h5 := lexLtb_trans b.data c.data a.data h4 h3
      rw [h5] at h1
      exact h1

lemma strLeb_connex (a b : String) :
    strLeb a b = true → strLeb b a = true → a = b := by
  unfold strLeb strLtb
  intro h1 h2
  rw [Bool.not_eq_true'] at h1 h2
  have h3 := lexLtb_connex a.data b.data h2 h1
  cases a; cases b
  exact congrArg String.mk h3

lemma mem_monthsOf (rows : List Row) (m : String) :
    m ∈ monthsOf rows ↔ ∃ r ∈ rows, monthKey r.date = m := by
  unfold monthsOf
  rw [(sortBy_perm _ _).mem_iff, List.mem_dedup]
  simp [eq_comm]

lemma monthsOf_nodup (rows : List Row) : (monthsOf rows).Nodup :=
  (sortBy_perm _ _).symm.nodup (List.nodup_dedup _)

lemma process_monthly_length (rows : List Row) (p : Person) :
    (process_monthly_data rows p).length = (monthsOf rows).length := by
  simp [process_monthly_data, monthlyBase]

lemma process_monthly_months (rows : List Row) (p : Person) :
    (process_monthly_data rows p).map (·.month) = monthsOf rows := by
  unfold process_monthly_data
  rw [List.map_map]
  have h1 : ((fun mr : MonthlyRow => mr.month) ∘ shiftFill) =
      fun x : MonthlyRow × Option ℚ => x.1.month := rfl
  rw [h1]
  have h2 : (fun x : MonthlyRow × Option ℚ => x.1.month) =
      (fun mr : MonthlyRow => mr.month) ∘ Prod.fst := rfl
  rw [h2, ← List.map_map, List.map_fst_zip _ _ (by simp)]
  unfold monthlyBase
  rw [List.map_map]
  have h3 : ((fun mr : MonthlyRow => mr.month) ∘ monthlyAgg1 rows p) = id := rfl
  rw [h3, List.map_id]

lemma process_monthly_fields (rows : List Row) (p : Person) :
    ∀ mr ∈ process_monthly_data rows p,
      mr.total = ((monthGroup rows mr.month).map (Row.amount p)).sum
      ∧ mr.transactions = (monthGroup rows mr.month).length
      ∧ mr.average = mr.total / (mr.transactions : ℚ) := by
  intro mr hmr
  unfold process_monthly_data at hmr
  rcases List.mem_map.mp hmr with ⟨x, hx, rfl⟩
  have hx1 : x.1 ∈ monthlyBase rows p := (List.of_mem_zip hx).1
  unfold monthlyBase at hx1
  rcases List.mem_map.mp hx1 with ⟨m, _, hm⟩
  have ht : (shiftFill x).total = x.1.total := rfl
  have hmo : (shiftFill x).month = x.1.month := rfl
  have htr2 : (shiftFill x).transactions = x.1.transactions := rfl
  have hav : (shiftFill x).average = x.1.average := rfl
  rw [ht, hmo, htr2, hav, ← hm]
  exact ⟨rfl, rfl, rfl⟩

/-- C3 — `process_monthly_data` returns one row per distinct `'%Y-%m'` month
key, whose `Total`, `Average` and `Transactions` are the sum, arithmetic mean
and count of the selected person's amounts over the rows of that month. -/
theorem process_monthly_data_groupby_stats (rows : List Row) (p : Person) :
    ((process_monthly_data rows p).map (·.month)).Nodup
    ∧ (∀ m : String,
        m ∈ (process_monthly_data rows p).map (·.month) ↔ ∃ r ∈ rows, monthKey r.date = m)
    ∧ ∀ mr ∈ process_monthly_data rows p,
        mr.total = ((monthGroup rows mr.month).map (Row.amount p)).sum
        ∧ mr.transactions = (monthGroup rows mr.month).length
        ∧ mr.average = mr.total / (mr.transactions : ℚ) := by
  refine ⟨?_, ?_, process_monthly_fields rows p⟩
  · rw [process_monthly_months]; exact monthsOf_nodup rows
  · intro m; rw [process_monthly_months]; exact mem_monthsOf rows m

/-- Witness for C3 on a concrete two-month table. -/
theorem process_monthly_data_groupby_stats_witness :
    ((process_monthly_data [sampleRow, febRow] Person.alysson).map (·.month)).Nodup
    ∧ ("2024-01" ∈ (process_monthly_data [sampleRow, febRow] Person.alysson).map (·.month)
        ↔ ∃ r ∈ [sampleRow, febRow], monthKey r.date = "2024-01") :=
  ⟨(process_monthly_data_groupby_stats [sampleRow, febRow] Person.alysson).1,
   (process_monthly_data_groupby_stats [sampleRow, febRow] Person.alysson).2.1 "2024-01"⟩

/-- C4 — in `process_monthly_data`, each row after the first has
`Change = Total - previous Total` and (when the previous `Total` is nonzero,
so that the quotient is a finite number)
`Change_Percentage = Change / previous Total * 100`; the first row has
`Change_Percentage = 0` (`fillna(0)` of the shifted `NaN`). -/
theorem process_monthly_data_shift_delta (rows : List Row) (p : Person) (i : Nat)
    (h : i + 1 < (process_monthly_data rows p).length) :
    ((process_monthly_data rows p).get ⟨i + 1, h⟩).change =
      some (((process_monthly_data rows p).get ⟨i + 1, h⟩).total -
        ((process_monthly_data rows p).get ⟨i, Nat.lt_of_succ_lt h⟩).total)
    ∧ (((process_monthly_data rows p).get ⟨i, Nat.lt_of_succ_lt h⟩).total ≠ 0 →
        ((process_monthly_data rows p).get ⟨i + 1, h⟩).changePct =
          (((process_monthly_data rows p).get ⟨i + 1, h⟩).total -
            ((process_monthly_data rows p).get ⟨i, Nat.lt_of_succ_lt h⟩).total) /
            ((process_monthly_data rows p).get ⟨i, Nat.lt_of_succ_lt h⟩).total * 100)
    ∧ ((process_monthly_data rows p).get ⟨0, Nat.lt_of_le_of_lt (Nat.zero_le _) h⟩).changePct
        = 0 := by
  simp only [List.get_eq_getElem, process_monthly_data, List.getElem_map, List.getElem_zip,
    List.getElem_cons_succ, List.getElem_cons_zero]
  exact ⟨rfl, fun _ => rfl, rfl⟩

/-- Witness for C4 on a concrete two-month table: the second month's
percentage change is computed from the first month's total. -/
theorem process_monthly_data_shift_delta_witness :
    0 + 1 < (process_monthly_data [sampleRow, febRow] Person.alysson).length
    ∧ ((process_monthly_data [sampleRow, febRow] Person.alysson).get
        ⟨0, by rw [process_monthly_length]; decide⟩).total ≠ 0
    ∧ ((process_monthly_data [sampleRow, febRow] Person.alysson).get
        ⟨0 + 1, by rw [process_monthly_length]; decide⟩).changePct =
      (((process_monthly_data [sampleRow, febRow] Person.alysson).get
          ⟨0 + 1, by rw [process_monthly_length]; decide⟩).total -
        ((process_monthly_data [sampleRow, febRow] Person.alysson).get
          ⟨0, by rw [process_monthly_length]; decide⟩).total) /
        ((process_monthly_data [sampleRow, febRow] Person.alysson).get
          ⟨0, by rw [process_monthly_length]; decide⟩).total * 100 := by
  have hlen : 0 + 1 < (process_monthly_data [sampleRow, febRow] Person.alysson).length := by
    rw [process_monthly_length]; decide
  have hm : monthsOf [sampleRow, febRow] = ["2024-01", "2024-02"] := by decide
  have hg : monthGroup [sampleRow, febRow] "2024-01" = [sampleRow] := by decide
  have ht0 : ((process_monthly_data [sampleRow, febRow] Person.alysson).get
      ⟨0, Nat.lt_of_succ_lt hlen⟩).total = -3 := by
    simp only [List.get_eq_getElem, process_monthly_data, List.getElem_map, List.getElem_zip,
      List.getElem_cons_zero, monthlyBase]
    simp only [hm]
    simp only [List.getElem_cons_zero]
    show sumAmount (monthGroup [sampleRow, febRow] "2024-01") Person.alysson = -3
    rw [hg]
    simp [sumAmount, Row.amount, sampleRow]
  have hne : ((process_monthly_data [sampleRow, febRow] Person.alysson).get
      ⟨0, Nat.lt_of_succ_lt hlen⟩).total ≠ 0 := by
    rw [ht0]; norm_num
  exact ⟨hlen, hne,
    (process_monthly_data_shift_delta [sampleRow, febRow] Person.alysson 0 hlen).2.1 hne⟩

lemma digitChar_lt_iff_aux (x y : Nat) (hx : x < 10) (hy : y < 10) :
    Char.ofNat (48 + x) < Char.ofNat (48 + y) ↔ x < y := by
  interval_cases x <;> interval_cases y <;> decide

lemma digitChar_lt_iff (a b : Nat) : digitChar a < digitChar b ↔ a % 10 < b % 10 := by
  unfold digitChar
  exact digitChar_lt_iff_aux _ _ (Nat.mod_lt _ (by omega)) (Nat.mod_lt _ (by omega))

lemma lexLtb_cons_iff (a b : Char) (as bs : List Char) :
    lexLtb (a :: as) (b :: bs) = true ↔
      (a < b ∨ (¬ a < b ∧ ¬ b < a ∧ lexLtb as bs = true)) := by
  simp only [lexLtb]
  split_ifs with h1 h2
  · simp [h1]
  · simp [h1, h2]
  · simp [h1, h2]

lemma lexLtb_nil_nil : lexLtb [] [] = false := rfl

lemma yearDigitsLt_iff (dy ey : Nat) (hd1 : 1000 ≤ dy) (hd2 : dy ≤ 9999)
    (he1 : 1000 ≤ ey) (he2 : ey ≤ 9999) :
    (dy / 1000 % 10 < ey / 1000 % 10 ∨
      (¬ dy / 1000 % 10 < ey / 1000 % 10 ∧ ¬ ey / 1000 % 10 < dy / 1000 % 10 ∧
        (dy / 100 % 10 < ey / 100 % 10 ∨
          (¬ dy / 100 % 10 < ey / 100 % 10 ∧ ¬ ey / 100 % 10 < dy / 100 % 10 ∧
            (dy / 10 % 10 < ey / 10 % 10 ∨
              (¬ dy / 10 % 10 < ey / 10 % 10 ∧ ¬ ey / 10 % 10 < dy / 10 % 10 ∧
                dy % 10 < ey % 10)))))) ↔ dy < ey := by
  have k1 : dy / 10 / 10 = dy / 100 := by rw [Nat.div_div_eq_div_mul]
  have k2 : dy / 100 / 10 = dy / 1000 := by rw [Nat.div_div_eq_div_mul]
  have k3 : ey / 10 / 10 = ey / 100 := by rw [Nat.div_div_eq_div_mul]
  have k4 : ey / 100 / 10 = ey / 1000 := by rw [Nat.div_div_eq_div_mul]
  constructor
  · rintro (h | ⟨h1, h2, (h | ⟨h3, h4, (h | ⟨h5, h6, h⟩)⟩)⟩) <;> omega
  · intro h
    rcases Nat.lt_trichotomy (dy / 1000 % 10) (ey / 1000 % 10) with h1 | h1 | h1
    · exact Or.inl h1
    · rcases Nat.lt_trichotomy (dy / 100 % 10) (ey / 100 % 10) with h2 | h2 | h2
      · exact Or.inr ⟨by omega, by omega, Or.inl h2⟩
      · rcases Nat.lt_trichotomy (dy / 10 % 10) (ey / 10 % 10) with h3 | h3 | h3
        · exact Or.inr ⟨by omega, by omega, Or.inr ⟨by omega, by omega, Or.inl h3⟩⟩
        · refine Or.inr ⟨by omega, by omega, Or.inr ⟨by omega, by omega,
            Or.inr ⟨by omega, by omega, by omega⟩⟩⟩
        · exfalso; omega
      · exfalso; omega
    · exfalso; omega

lemma yearDigitsEq_iff (dy ey : Nat) (hd1 : 1000 ≤ dy) (hd2 : dy ≤ 9999)
    (he1 : 1000 ≤ ey) (he2 : ey ≤ 9999) :
    ((¬ dy / 1000 % 10 < ey / 1000 % 10 ∧ ¬ ey / 1000 % 10 < dy / 1000 % 10) ∧
      (¬ dy / 100 % 10 < ey / 100 % 10 ∧ ¬ ey / 100 % 10 < dy / 100 % 10) ∧
      (¬ dy / 10 % 10 < ey / 10 % 10 ∧ ¬ ey / 10 % 10 < dy / 10 % 10) ∧
      (¬ dy % 10 < ey % 10 ∧ ¬ ey % 10 < dy % 10)) ↔ dy = ey := by
  have k1 : dy / 10 / 10 = dy / 100 := by rw [Nat.div_div_eq_div_mul]
  have k2 : dy / 100 / 10 = dy / 1000 := by rw [Nat.div_div_eq_div_mul]
  have k3 : ey / 10 / 10 = ey / 100 := by rw [Nat.div_div_eq_div_mul]
  have k4 : ey / 100 / 10 = ey / 1000 := by rw [Nat.div_div_eq_div_mul]
  omega

lemma monthDigitsLt_iff (dm em : Nat) (hd3 : 1 ≤ dm) (hd4 : dm ≤ 12)
    (he3 : 1 ≤ em) (he4 : em ≤ 12) :
    (dm / 10 % 10 < em / 10 % 10 ∨
      (¬ dm / 10 % 10 < em / 10 % 10 ∧ ¬ em / 10 % 10 < dm / 10 % 10 ∧
        dm % 10 < em % 10)) ↔ dm < em := by
  omega

lemma lex_regroup (Y1 A1 B1 Y2 A2 B2 Y3 A3 B3 Y4 A4 B4 M : Prop) :
    (Y1 ∨ (A1 ∧ B1 ∧ (Y2 ∨ (A2 ∧ B2 ∧ (Y3 ∨ (A3 ∧ B3 ∧ (Y4 ∨ (A4 ∧ B4 ∧ M)))))))) ↔
      ((Y1 ∨ (A1 ∧ B1 ∧ (Y2 ∨ (A2 ∧ B2 ∧ (Y3 ∨ (A3 ∧ B3 ∧ Y4))))))
        ∨ (((A1 ∧ B1) ∧ (A2 ∧ B2) ∧ (A3 ∧ B3) ∧ (A4 ∧ B4)) ∧ M)) := by
  tauto

/-- The heart of C10: for dates with four-digit years (as all `pd.Timestamp`
values have) and months 1..12, Python string order of the zero-padded
`'%Y-%m'` keys coincides with chronological order of (year, month). -/
lemma monthKey_lt_iff (d e : Date) (hd : validDate d) (he : validDate e) :
    strLtb (monthKey d) (monthKey e) = true ↔
      (d.year < e.year ∨ (d.year = e.year ∧ d.month < e.month)) := by
  obtain ⟨hd1, hd2, hd3, hd4⟩ := hd
  obtain ⟨he1, he2, he3, he4⟩ := he
  show lexLtb
      [digitChar (d.year / 1000), digitChar (d.year / 100), digitChar (d.year / 10),
        digitChar d.year, '-', digitChar (d.month / 10), digitChar d.month]
      [digitChar (e.year / 1000), digitChar (e.year / 100), digitChar (e.year / 10),
        digitChar e.year, '-', digitChar (e.month / 10), digitChar e.month] = true ↔ _
  simp only [lexLtb_cons_iff, digitChar_lt_iff, lexLtb_nil_nil, lt_self_iff_false,
    not_false_eq_true, true_and, Bool.false_eq_true, and_false, or_false, false_or]
  rw [lex_regroup, yearDigitsLt_iff d.year e.year hd1 hd2 he1 he2,
    yearDigitsEq_iff d.year e.year hd1 hd2 he1 he2,
    monthDigitsLt_iff d.month e.month hd3 hd4 he3 he4]

lemma strLtb_of_le_ne (a b : String) (h1 : strLeb a b = true) (h2 : a ≠ b) :
    strLtb a b = true := by
  cases h3 : strLtb a b
  · refine absurd (strLeb_connex a b h1 ?_) h2
    unfold strLeb
    rw [h3]
    rfl
  · rfl

/-- C10 — the rows of `process_monthly_data` are strictly ascending in Python
string order of their `'%Y-%m'` keys; every month present in the data appears;
and on valid dates that string order coincides with chronological order, so
consecutive rows are consecutive months of the data and the last row is the
latest month. -/
theorem monthly_rows_chronological (rows : List Row) (p : Person) :
    List.Chain' (fun a b => strLtb a b = true)
      ((process_monthly_data rows p).map (·.month))
    ∧ (∀ m : String,
        m ∈ (process_monthly_data rows p).map (·.month) ↔ ∃ r ∈ rows, monthKey r.date = m)
    ∧ ∀ d e : Date, validDate d → validDate e →
        (strLtb (monthKey d) (monthKey e) = true ↔
          (d.year < e.year ∨ (d.year = e.year ∧ d.month < e.month))) := by
  refine ⟨?_, ?_, monthKey_lt_iff⟩
  · rw [process_monthly_months]
    have hle : (monthsOf rows).Pairwise fun x y => strLeb x y = true :=
      sortBy_pairwise strLeb strLeb_total strLeb_trans _
    have hne : (monthsOf rows).Pairwise (· ≠ ·) := monthsOf_nodup rows
    exact ((hle.and hne).imp fun h => strLtb_of_le_ne _ _ h.1 h.2).chain'
  · intro m; rw [process_monthly_months]; exact mem_monthsOf rows m

/-- Witness for C10: January 2024 precedes February 2024 both as strings and
chronologically. -/
theorem monthly_rows_chronological_witness :
    strLtb (monthKey ⟨2024, 1, 15⟩) (monthKey ⟨2024, 2, 3⟩) = true :=
  ((monthly_rows_chronological [sampleRow, febRow] Person.alysson).2.2
    ⟨2024, 1, 15⟩ ⟨2024, 2, 3⟩ (by decide) (by decide)).mpr (by decide)

/-- C5 counterexample — a monthly-mode `get_category_data` call mutates the
loaded dataset: it gains the `'Month'` column, so the dataframe after the
call differs from the dataframe before it. -/
theorem get_category_data_monthly_mutates :
    (get_category_data_monthly (load_df [sampleRow]) Person.alysson none).2
      ≠ load_df [sampleRow] := by
  decide

/-- C5 amended — no operation changes the set of rows or the values of the
original columns; the only mutation is that monthly-mode `get_category_data`
adds the derived `'Month'` column to the dataframe. -/
theorem dataset_not_mutated_except_month_column (df : DataFrame) (p : Person)
    (seld : Option Date) (selm : Option String) :
    (process_daily_data_st df p).2 = df
    ∧ (process_monthly_data_st df p).2 = df
    ∧ (get_category_data_daily df p seld).2 = df
    ∧ (get_category_data_monthly df p selm).2.rows = df.rows
    ∧ (get_category_data_monthly df p selm).2.hasMonthCol = true :=
  ⟨rfl, rfl, rfl, rfl, rfl⟩

/-- C6 counterexample — in the monthly view the category chart and table are
rendered even when the category breakdown is empty (here: the only row of the
selected month has a blank category), instead of an informational empty
state. -/
theorem monthly_empty_category_renders_chart :
    (get_category_data_monthly (load_df [blankCatRow]) Person.alysson (some "2024-01")).1 = []
    ∧ monthly_category_view
        (get_category_data_monthly (load_df [blankCatRow]) Person.alysson (some "2024-01")).1
      = CategoryView.chartAndTable
    ∧ CategoryView.chartAndTable ≠ CategoryView.emptyInfo := by
  refine ⟨by decide, rfl, by decide⟩

/-- C6 amended — only the daily view shows the informational empty state for
an empty category breakdown; the monthly view renders the chart and table
unconditionally. -/
theorem category_empty_state_daily_only (catData : List (String × ℚ)) :
    (daily_category_view catData = CategoryView.emptyInfo ↔ catData = [])
    ∧ monthly_category_view catData = CategoryView.chartAndTable := by
  refine ⟨?_, rfl⟩
  by_cases h : catData = [] <;> simp [daily_category_view, h]

/-- Witness for the amended C6 at concrete inputs. -/
theorem category_empty_state_daily_only_witness :
    daily_category_view [] = CategoryView.emptyInfo
    ∧ monthly_category_view [] = CategoryView.chartAndTable :=
  ⟨(category_empty_state_daily_only []).1.mpr rfl, (category_empty_state_daily_only []).2⟩

lemma load_data_nonneg (rows : List Row) :
    ∀ r ∈ load_data rows, 0 ≤ r.alysson ∧ 0 ≤ r.bruceCheng := by
  intro r hr
  rcases List.mem_map.mp hr with ⟨r0, _, rfl⟩
  exact ⟨abs_nonneg _, abs_nonneg _⟩

lemma sumAmount_nonneg (rows : List Row) (p : Person)
    (h : ∀ r ∈ rows, 0 ≤ r.alysson ∧ 0 ≤ r.bruceCheng) :
    0 ≤ sumAmount rows p := by
  apply List.sum_nonneg
  intro x hx
  rcases List.mem_map.mp hx with ⟨r, hr, rfl⟩
  cases p
  · exact (h r hr).1
  · exact (h r hr).2

lemma categoryAgg_nonneg (rows : List Row) (p : Person)
    (h : ∀ r ∈ rows, 0 ≤ r.alysson ∧ 0 ≤ r.bruceCheng) :
    ∀ x ∈ categoryAgg rows p, 0 ≤ x.2 := by
  intro x hx
  rcases List.mem_filter.mp hx with ⟨hx1, _⟩
  rcases List.mem_map.mp hx1 with ⟨c, _, rfl⟩
  exact sumAmount_nonneg _ p fun r hr => h r (List.mem_filter.mp hr).1

/-- C9 — every amount of the loaded dataset is non-negative (absolute
values), and so are all the aggregates derived from it: daily totals, monthly
totals and averages, transaction counts, and per-category totals in both
modes, for any person and period. -/
theorem loaded_amounts_nonneg (rows : List Row) (p : Person) (b : Bool)
    (seld : Option Date) (selm : Option String) :
    (∀ r ∈ load_data rows, 0 ≤ r.alysson ∧ 0 ≤ r.bruceCheng)
    ∧ (∀ x ∈ process_daily_data (load_data rows) p, 0 ≤ x.2)
    ∧ (∀ mr ∈ process_monthly_data (load_data rows) p,
        0 ≤ mr.total ∧ 0 ≤ mr.average ∧ 0 ≤ (mr.transactions : ℚ))
    ∧ (∀ x ∈ (get_category_data_daily ⟨load_data rows, b⟩ p seld).1, 0 ≤ x.2)
    ∧ (∀ x ∈ (get_category_data_monthly ⟨load_data rows, b⟩ p selm).1, 0 ≤ x.2) := by
  refine ⟨load_data_nonneg rows, ?_, ?_, ?_, ?_⟩
  · intro x hx
    unfold process_daily_data at hx
    rcases List.mem_map.mp hx with ⟨d, _, rfl⟩
    exact sumAmount_nonneg _ p fun r hr => load_data_nonneg rows r (List.mem_filter.mp hr).1
  · intro mr hmr
    obtain ⟨ht, htr, hav⟩ := process_monthly_fields (load_data rows) p mr hmr
    have h0 : 0 ≤ mr.total := by
      rw [ht]
      exact sumAmount_nonneg _ p fun r hr => load_data_nonneg rows r (List.mem_filter.mp hr).1
    refine ⟨h0, ?_, by positivity⟩
    rw [hav]
    positivity
  · intro x hx
    unfold get_category_data_daily at hx
    refine categoryAgg_nonneg _ p ?_ x hx
    intro r hr
    cases seld with
    | none => exact load_data_nonneg rows r hr
    | some d => exact load_data_nonneg rows r (List.mem_filter.mp hr).1
  · intro x hx
    unfold get_category_data_monthly at hx
    refine categoryAgg_nonneg _ p ?_ x hx
    intro r hr
    cases selm with
    | none => exact load_data_nonneg rows r hr
    | some m => exact load_data_nonneg rows r (List.mem_filter.mp hr).1

/-- Witness for C9: the loaded version of the sample row (whose raw amount is
negative) has non-negative amounts. -/
theorem loaded_amounts_nonneg_witness :
    0 ≤ (absRow sampleRow).alysson ∧ 0 ≤ (absRow sampleRow).bruceCheng :=
  (loaded_amounts_nonneg [sampleRow] Person.alysson false none none).1
    (absRow sampleRow) (by decide)

lemma digitChar_toNat (n : Nat) : (digitChar n).toNat = 48 + n % 10 := by
  unfold digitChar
  have h : n % 10 < 10 := Nat.mod_lt _ (by omega)
  generalize n % 10 = k at h ⊢
  interval_cases k <;> decide

lemma digitChar_isDigit (n : Nat) : (digitChar n).isDigit = true := by
  unfold digitChar
  have h : n % 10 < 10 := Nat.mod_lt _ (by omega)
  generalize n % 10 = k at h ⊢
  interval_cases k <;> decide

lemma digitChar_ne_comma (n : Nat) : digitChar n ≠ ',' := by
  unfold digitChar
  have h : n % 10 < 10 := Nat.mod_lt _ (by omega)
  generalize n % 10 = k at h ⊢
  interval_cases k <;> decide

lemma natDigitsF_zero (f : Nat) : natDigitsF f 0 = [] := by
  cases f <;> simp [natDigitsF]

lemma natDigitsF_congr (f : Nat) :
    ∀ g n, n ≤ f → n ≤ g → natDigitsF f n = natDigitsF g n := by
  induction f with
  | zero =>
    intro g n hf _
    have hn : n = 0 := Nat.le_zero.mp hf
    rw [hn, natDigitsF_zero, natDigitsF_zero]
  | succ f ihf =>
    intro g n hf hg
    cases g with
    | zero =>
      have hn : n = 0 := Nat.le_zero.mp hg
      rw [hn, natDigitsF_zero, natDigitsF_zero]
    | succ g =>
      by_cases hn : n = 0
      · rw [hn, natDigitsF_zero, natDigitsF_zero]
      · show (if n = 0 then [] else digitChar n :: natDigitsF f (n / 10)) =
          (if n = 0 then [] else digitChar n :: natDigitsF g (n / 10))
        rw [if_neg hn, if_neg hn,
          ihf g (n / 10) (by omega) (by omega)]

lemma natDigitsLSB_succ (n : Nat) (h : n ≠ 0) :
    natDigitsLSB n = digitChar n :: natDigitsLSB (n / 10) := by
  unfold natDigitsLSB
  cases n with
  | zero => exact absurd rfl h
  | succ m =>
    show (if m + 1 = 0 then [] else digitChar (m + 1) :: natDigitsF m ((m + 1) / 10)) = _
    rw [if_neg h]
    rw [natDigitsF_congr m ((m + 1) / 10) ((m + 1) / 10) (by omega) (le_refl _)]

lemma natDigitsLSB_chars (n : Nat) :
    ∀ c ∈ natDigitsLSB n, c.isDigit = true ∧ c ≠ ',' := by
  induction n using Nat.strong_induction_on with
  | _ n ih =>
    by_cases hn : n = 0
    · rw [hn]
      intro c hc
      simp [natDigitsLSB, natDigitsF] at hc
    · rw [natDigitsLSB_succ n hn]
      intro c hc
      rcases List.mem_cons.mp hc with rfl | hc
      · exact ⟨digitChar_isDigit n, digitChar_ne_comma n⟩
      · exact ih (n / 10) (Nat.div_lt_self (by omega) (by omega)) c hc

lemma decValLSB_cons (c : Char) (l : List Char) :
    decValLSB (c :: l) = (c.toNat - 48) + 10 * decValLSB l := rfl

lemma decValLSB_natDigitsLSB (n : Nat) : decValLSB (natDigitsLSB n) = n := by
  induction n using Nat.strong_induction_on with
  | _ n ih =>
    by_cases hn : n = 0
    · rw [hn]; rfl
    · rw [natDigitsLSB_succ n hn, decValLSB_cons,
        ih (n / 10) (Nat.div_lt_self (by omega) (by omega)), digitChar_toNat]
      omega

lemma natDigitsLSB_ne_nil (n : Nat) (h : n ≠ 0) : natDigitsLSB n ≠ [] := by
  rw [natDigitsLSB_succ n h]
  exact List.cons_ne_nil _ _

lemma group3_small (ds : List Char) (h : ds.length ≤ 3) : group3 ds = ds := by
  rcases ds with _ | ⟨d1, _ | ⟨d2, _ | ⟨d3, _ | ⟨d4, tl⟩⟩⟩⟩
  · rfl
  · rfl
  · rfl
  · rfl
  · simp at h

lemma group3_cons4 (d1 d2 d3 d4 : Char) (rest : List Char) :
    group3 (d1 :: d2 :: d3 :: d4 :: rest) = d1 :: d2 :: d3 :: ',' :: group3 (d4 :: rest) :=
  rfl

lemma group3_filter : ∀ (n : Nat) (ds : List Char), ds.length ≤ n →
    (∀ c ∈ ds, c ≠ ',') →
    (group3 ds).filter (fun c => decide (c ≠ ',')) = ds := by
  intro n
  induction n with
  | zero =>
    intro ds hlen h
    rw [group3_small _ (by omega)]
    exact List.filter_eq_self.mpr fun a ha => decide_eq_true (h a ha)
  | succ n ih =>
    intro ds hlen h
    rcases ds with _ | ⟨d1, _ | ⟨d2, _ | ⟨d3, _ | ⟨d4, tl⟩⟩⟩⟩
    · rfl
    · rw [group3_small _ (by simp)]
      exact List.filter_eq_self.mpr fun a ha => decide_eq_true (h a ha)
    · rw [group3_small _ (by simp)]
      exact List.filter_eq_self.mpr fun a ha => decide_eq_true (h a ha)
    · rw [group3_small _ (by simp)]
      exact List.filter_eq_self.mpr fun a ha => decide_eq_true (h a ha)
    · rw [group3_cons4]
      rw [List.filter_cons_of_pos (by exact decide_eq_true (h d1 (by simp))),
        List.filter_cons_of_pos (by exact decide_eq_true (h d2 (by simp))),
        List.filter_cons_of_pos (by exact decide_eq_true (h d3 (by simp))),
        List.filter_cons_of_neg (by simp)]
      rw [ih (d4 :: tl) (by simp at hlen ⊢; omega)
        (fun c hc => h c (by simp at hc ⊢; tauto))]

lemma group3_comma_pos : ∀ (n : Nat) (ds : List Char), ds.length ≤ n →
    (∀ c ∈ ds, c ≠ ',') →
    ∀ j (hj : j < (group3 ds).length),
      ((group3 ds).get ⟨j, hj⟩ = ',' ↔ j % 4 = 3) := by
  intro n
  induction n with
  | zero =>
    intro ds hlen h j hj
    rcases ds with _ | ⟨d, tl⟩
    · exact absurd hj (by simp [group3])
    · simp at hlen
  | succ n ih =>
    intro ds hlen h j hj
    rcases ds with _ | ⟨d1, _ | ⟨d2, _ | ⟨d3, _ | ⟨d4, tl⟩⟩⟩⟩
    · exact absurd hj (by simp [group3])
    · have hg : group3 [d1] = [d1] := group3_small _ (by simp)
      rw [List.get_eq_getElem]
      simp only [hg] at hj ⊢
      have hj1 : j = 0 := by simp at hj; omega
      subst hj1
      simp only [List.getElem_cons_zero]
      exact iff_of_false (h d1 (by simp)) (by omega)
    · have hg : group3 [d1, d2] = [d1, d2] := group3_small _ (by simp)
      rw [List.get_eq_getElem]
      simp only [hg] at hj ⊢
      have hj1 : j < 2 := by simpa using hj
      interval_cases j
      · simp only [List.getElem_cons_zero]
        exact iff_of_false (h d1 (by simp)) (by omega)
      · simp only [List.getElem_cons_succ, List.getElem_cons_zero]
        exact iff_of_false (h d2 (by simp)) (by omega)
    · have hg : group3 [d1, d2, d3] = [d1, d2, d3] := group3_small _ (by simp)
      rw [List.get_eq_getElem]
      simp only [hg] at hj ⊢
      have hj1 : j < 3 := by simpa using hj
      interval_cases j
      · simp only [List.getElem_cons_zero]
        exact iff_of_false (h d1 (by simp)) (by omega)
      · simp only [List.getElem_cons_succ, List.getElem_cons_zero]
        exact iff_of_false (h d2 (by simp)) (by omega)
      · simp only [List.getElem_cons_succ, List.getElem_cons_zero]
        exact iff_of_false (h d3 (by simp)) (by omega)
    · have hg : group3 (d1 :: d2 :: d3 :: d4 :: tl) =
          d1 :: d2 :: d3 :: ',' :: group3 (d4 :: tl) := group3_cons4 d1 d2 d3 d4 tl
      rw [List.get_eq_getElem]
      simp only [hg] at hj ⊢
      rcases j with _ | _ | _ | _ | j
      · simp only [List.getElem_cons_zero]
        exact iff_of_false (h d1 (by simp)) (by omega)
      · simp only [List.getElem_cons_succ, List.getElem_cons_zero]
        exact iff_of_false (h d2 (by simp)) (by omega)
      · simp only [List.getElem_cons_succ, List.getElem_cons_zero]
        exact iff_of_false (h d3 (by simp)) (by omega)
      · exact iff_of_true (by simp) (by omega)
      · simp only [List.getElem_cons_succ]
        have hj2 : j < (group3 (d4 :: tl)).length := by
          simp only [List.length_cons] at hj
          omega
        have hlen2 : (d4 :: tl).length ≤ n := by
          simp only [List.length_cons] at hlen ⊢
          omega
        have h2 : ∀ c ∈ d4 :: tl, c ≠ ',' := fun c hc => h c (by simp at hc ⊢; tauto)
        rw [← List.get_eq_getElem (group3 (d4 :: tl)) ⟨j, hj2⟩]
        rw [ih (d4 :: tl) hlen2 h2 j hj2]
        omega

lemma fracChars_length (p : Nat) : ∀ m, (fracChars p m).length = p := by
  induction p with
  | zero => intro m; rfl
  | succ p ih => intro m; simp [fracChars, ih]

lemma fracChars_digits (p : Nat) : ∀ m, ∀ c ∈ fracChars p m, c.isDigit = true := by
  induction p with
  | zero => intro m c hc; simp [fracChars] at hc
  | succ p ih =>
    intro m c hc
    rcases List.mem_append.mp hc with h1 | h2
    · exact ih _ c h1
    · have hc2 := List.mem_singleton.mp h2
      rw [hc2]
      exact digitChar_isDigit m

lemma fracChars_decVal (p : Nat) : ∀ m, decValLSB (fracChars p m).reverse = m % 10 ^ p := by
  induction p with
  | zero => intro m; simp [fracChars, decValLSB, Nat.mod_one]
  | succ p ih =>
    intro m
    rw [show fracChars (p + 1) m = fracChars p (m / 10) ++ [digitChar m] from rfl,
      List.reverse_append]
    simp only [List.reverse_cons, List.reverse_nil, List.nil_append, List.singleton_append]
    rw [decValLSB_cons, ih (m / 10), digitChar_toNat, pow_succ', Nat.mod_mul]
    omega

lemma group3_ne_nil (ds : List Char) (h : ds ≠ []) : group3 ds ≠ [] := by
  rcases ds with _ | ⟨d1, _ | ⟨d2, _ | ⟨d3, _ | ⟨d4, tl⟩⟩⟩⟩
  · exact absurd rfl h
  · rw [group3_small _ (by simp)]; exact List.cons_ne_nil _ _
  · rw [group3_small _ (by simp)]; exact List.cons_ne_nil _ _
  · rw [group3_small _ (by simp)]; exact List.cons_ne_nil _ _
  · rw [group3_cons4]; exact List.cons_ne_nil _ _

lemma group3_mem (ds : List Char) (h : ∀ c ∈ ds, c ≠ ',') :
    ∀ c ∈ group3 ds, c ∈ ds ∨ c = ',' := by
  intro c hc
  by_cases hcc : c = ','
  · exact Or.inr hcc
  · left
    have hm : c ∈ (group3 ds).filter (fun x => decide (x ≠ ',')) :=
      List.mem_filter.mpr ⟨hc, decide_eq_true hcc⟩
    rwa [group3_filter ds.length ds (le_refl _) h] at hm

lemma grouped_rev_comma (ds : List Char) (h : ∀ c ∈ ds, c ≠ ',') :
    ∀ i (hi : i < (group3 ds).reverse.length),
      ((group3 ds).reverse.get ⟨i, hi⟩ = ','
        ↔ ((group3 ds).reverse.length - i) % 4 = 0) := by
  intro i hi
  rw [List.get_eq_getElem, List.getElem_reverse]
  have hj : (group3 ds).length - 1 - i < (group3 ds).length := by
    rw [List.length_reverse] at hi
    omega
  rw [← List.get_eq_getElem (group3 ds) ⟨(group3 ds).length - 1 - i, hj⟩,
    group3_comma_pos ds.length ds (le_refl _) h _ hj]
  rw [List.length_reverse] at hi ⊢
  omega

lemma intPartChars_ne_nil (n : Nat) : intPartChars n ≠ [] := by
  unfold intPartChars
  split_ifs with h
  · exact List.cons_ne_nil _ _
  · simp only [ne_eq, List.reverse_eq_nil_iff]
    exact group3_ne_nil _ (natDigitsLSB_ne_nil n h)

lemma intPartChars_chars (n : Nat) :
    ∀ c ∈ intPartChars n, c.isDigit = true ∨ c = ',' := by
  unfold intPartChars
  split_ifs with h
  · intro c hc
    have hc2 := List.mem_singleton.mp hc
    rw [hc2]
    exact Or.inl (digitChar_isDigit 0)
  · intro c hc
    rw [List.mem_reverse] at hc
    rcases group3_mem _ (fun x hx => (natDigitsLSB_chars n x hx).2) c hc with h1 | h1
    · exact Or.inl (natDigitsLSB_chars n c h1).1
    · exact Or.inr h1

lemma intPartChars_comma (n : Nat) :
    ∀ i (hi : i < (intPartChars n).length),
      ((intPartChars n).get ⟨i, hi⟩ = ',' ↔ ((intPartChars n).length - i) % 4 = 0) := by
  by_cases h : n = 0
  · subst h
    intro i hi
    rw [List.get_eq_getElem]
    have he : intPartChars 0 = [digitChar 0] := rfl
    simp only [he] at hi ⊢
    have hi0 : i = 0 := by simp at hi; omega
    subst hi0
    simp only [List.getElem_cons_zero, List.length_cons, List.length_nil]
    exact iff_of_false (digitChar_ne_comma 0) (by omega)
  · have he : intPartChars n = (group3 (natDigitsLSB n)).reverse := by
      unfold intPartChars
      rw [if_neg h]
    intro i hi
    rw [List.get_eq_getElem]
    simp only [he] at hi ⊢
    rw [← List.get_eq_getElem _ ⟨i, hi⟩]
    exact grouped_rev_comma _ (fun c hc => (natDigitsLSB_chars n c hc).2) i hi

lemma intPartChars_decVal (n : Nat) :
    decValLSB (((intPartChars n).filter fun c => decide (c ≠ ',')).reverse) = n := by
  by_cases h : n = 0
  · subst h
    decide
  · have he : intPartChars n = (group3 (natDigitsLSB n)).reverse := by
      unfold intPartChars
      rw [if_neg h]
    rw [he, List.filter_reverse, List.reverse_reverse,
      group3_filter (natDigitsLSB n).length _ (le_refl _)
        (fun c hc => (natDigitsLSB_chars n c hc).2),
      decValLSB_natDigitsLSB]

lemma pyGroupedFixed_spec (x : ℚ) (prec : Nat) :
    ∃ ip fp : List Char,
      (pyGroupedFixed x prec).data =
        (if roundHalfEven (x * (10 : ℚ) ^ prec) < 0 then ['-'] else []) ++ ip ++ '.' :: fp
      ∧ fp.length = prec
      ∧ (∀ c ∈ fp, c.isDigit = true)
      ∧ ip ≠ []
      ∧ (∀ c ∈ ip, c.isDigit = true ∨ c = ',')
      ∧ (∀ i (hi : i < ip.length), (ip.get ⟨i, hi⟩ = ',' ↔ (ip.length - i) % 4 = 0))
      ∧ decValLSB ((ip.filter fun c => decide (c ≠ ',')).reverse)
          = (roundHalfEven (x * (10 : ℚ) ^ prec)).natAbs / 10 ^ prec
      ∧ decValLSB fp.reverse = (roundHalfEven (x * (10 : ℚ) ^ prec)).natAbs % 10 ^ prec := by
  refine ⟨intPartChars ((roundHalfEven (x * (10 : ℚ) ^ prec)).natAbs / 10 ^ prec),
    fracChars prec ((roundHalfEven (x * (10 : ℚ) ^ prec)).natAbs % 10 ^ prec),
    rfl, fracChars_length prec _, fracChars_digits prec _, intPartChars_ne_nil _,
    intPartChars_chars _, intPartChars_comma _, intPartChars_decVal _, ?_⟩
  rw [fracChars_decVal]
  exact Nat.mod_mod_of_dvd _ dvd_rfl

/-- C8 — the displayed strings are correctly formatted: a currency metric is
a dollar sign, an optional minus, a comma-grouped integer part (commas
exactly at thousands positions), a point and exactly two fraction digits, and
the digits spell the (half-even) rounded value in cents; the last-month
change is the same with one fraction digit, followed by a percent sign. -/
theorem display_format_correct (x : ℚ) :
    (∃ ip fp : List Char,
      (pyCurrency x).data =
        '$' :: ((if roundHalfEven (x * 100) < 0 then ['-'] else []) ++ ip ++ '.' :: fp)
      ∧ fp.length = 2
      ∧ (∀ c ∈ fp, c.isDigit = true)
      ∧ ip ≠ []
      ∧ (∀ c ∈ ip, c.isDigit = true ∨ c = ',')
      ∧ (∀ i (hi : i < ip.length), (ip.get ⟨i, hi⟩ = ',' ↔ (ip.length - i) % 4 = 0))
      ∧ decValLSB ((ip.filter fun c => decide (c ≠ ',')).reverse)
          = (roundHalfEven (x * 100)).natAbs / 100
      ∧ decValLSB fp.reverse = (roundHalfEven (x * 100)).natAbs % 100)
    ∧ (∃ ip fp : List Char,
      (pyPercent x).data =
        ((if roundHalfEven (x * 10) < 0 then ['-'] else []) ++ ip ++ '.' :: fp) ++ ['%']
      ∧ fp.length = 1
      ∧ (∀ c ∈ fp, c.isDigit = true)
      ∧ (∀ i (hi : i < ip.length), (ip.get ⟨i, hi⟩ = ',' ↔ (ip.length - i) % 4 = 0))
      ∧ decValLSB ((ip.filter fun c => decide (c ≠ ',')).reverse)
          = (roundHalfEven (x * 10)).natAbs / 10
      ∧ decValLSB fp.reverse = (roundHalfEven (x * 10)).natAbs % 10)
    ∧ (∀ (df : DataFrame) (p : Person),
        metric_total_daily df p =
          pyCurrency (((process_daily_data df.rows p).map Prod.snd).sum))
    ∧ (∀ (df : DataFrame) (p : Person),
        metric_last_month_change df p =
          ((process_monthly_data df.rows p).getLast?).map fun mr =>
            pyPercent mr.changePct) := by
  refine ⟨?_, ?_, fun df p => rfl, fun df p => rfl⟩
  · obtain ⟨ip, fp, hdata, hlen, hdig, hne, hchars, hcomma, hdeci, hdecf⟩ :=
      pyGroupedFixed_spec x 2
    have e1 : (10 : ℚ) ^ (2 : ℕ) = 100 := by norm_num
    have e2 : (10 : ℕ) ^ (2 : ℕ) = 100 := by norm_num
    rw [e1] at hdata hdeci hdecf
    rw [e2] at hdeci hdecf
    refine ⟨ip, fp, ?_, hlen, hdig, hne, hchars, hcomma, hdeci, hdecf⟩
    unfold pyCurrency
    rw [String.data_append, hdata]
    rfl
  · obtain ⟨ip, fp, hdata, hlen, hdig, hne, hchars, hcomma, hdeci, hdecf⟩ :=
      pyGroupedFixed_spec x 1
    have e1 : (10 : ℚ) ^ (1 : ℕ) = 10 := by norm_num
    have e2 : (10 : ℕ) ^ (1 : ℕ) = 10 := by norm_num
    rw [e1] at hdata hdeci hdecf
    rw [e2] at hdeci hdecf
    refine ⟨ip, fp, ?_, hlen, hdig, hcomma, hdeci, hdecf⟩
    unfold pyPercent
    rw [String.data_append, hdata]

/-- Witness for C8 at a concrete value. -/
theorem display_format_correct_witness :
    ∃ ip fp : List Char,
      (pyCurrency 5).data =
        '$' :: ((if roundHalfEven ((5 : ℚ) * 100) < 0 then ['-'] else []) ++ ip ++ '.' :: fp)
      ∧ fp.length = 2
      ∧ (∀ c ∈ fp, c.isDigit = true)
      ∧ ip ≠ []
      ∧ (∀ c ∈ ip, c.isDigit = true ∨ c = ',')
      ∧ (∀ i (hi : i < ip.length), (ip.get ⟨i, hi⟩ = ',' ↔ (ip.length - i) % 4 = 0))
      ∧ decValLSB ((ip.filter fun c => decide (c ≠ ',')).reverse)
          = (roundHalfEven ((5 : ℚ) * 100)).natAbs / 100
      ∧ decValLSB fp.reverse = (roundHalfEven ((5 : ℚ) * 100)).natAbs % 100 :=
  (display_format_correct 5).1

/-- Witness for C2 on a concrete two-row table with a repeated date. -/
theorem process_daily_data_groupby_sum_witness :
    ((process_daily_data [sampleRow, paidRow] .alysson).map Prod.fst).Nodup
    ∧ ((⟨2024, 1, 15⟩ : Date) ∈
        (process_daily_data [sampleRow, paidRow] .alysson).map Prod.fst
        ↔ ∃ r ∈ [sampleRow, paidRow], r.date = ⟨2024, 1, 15⟩) :=
  ⟨(process_daily_data_groupby_sum [sampleRow, paidRow] .alysson).1,
   (process_daily_data_groupby_sum [sampleRow, paidRow] .alysson).2.1 ⟨2024, 1, 15⟩⟩
